import Mathlib

/-!
Verification of the `FiberScheduler` core of the repository
(`src/FiberScheduler.py`) against its natural-language specification.

The scheduler is embedded shallowly:

* `FiberInfo` mirrors the Python `FiberInfo` dataclass (lines 6-13); the
  Python callable together with its invocation outcome is modelled as a
  function `Option α → Except ε Unit` (a raised exception is `.error e`,
  a normal return is `.ok ()`); the calling convention
  `fiber()` / `fiber(args)` is encoded by passing the stored `Option α`.
* `SchedState` mirrors the `FiberScheduler` instance attributes
  (`fiber_list`, `fiber_last_trigger_time`, `is_running`, lines 16-19);
  the Python dicts are association lists in insertion order, with
  insert-or-replace keeping the original position as Python dicts do.
* `runPassAux` / `runPass` embed one pass of the `for` body of
  `RunFiberLoop` (lines 40-58); `runLoop` drives finitely many passes at
  injected clock values (one simulated `time.time()` value per pass),
  stopping when an exception propagates out of a fiber, exactly as the
  loop thread dies on an unhandled exception.  `time.sleep` has no
  observable effect in the model.
* `ActivateFiber`, `DeactivateFiber`, `IsFiberRunning` embed lines 24-35;
  the Python `KeyError` raised by a failed dict lookup is the explicit
  `SchedErr.unknownTask` failure.  The sequential `DeactivateFiber`
  returns `.spinsForever` for the state in which its busy-wait loop
  (lines 29-30) can never observe `running_status = false` because no
  other execution context changes it.
* `DState` / `DStep` is a small-step interleaving model of the body of
  `DeactivateFiber` (lines 28-32) racing against the scheduler-loop
  thread: the `.deact` labelled steps are the wait iterations (line 29)
  and the flag clear (line 31); the `.env` labelled steps are the loop
  thread starting an invocation of an enabled task (lines 43 and 52) and
  finishing one (line 57).
* `LifecycleState` / `Run` / `Resume` / `Stop` embed lines 60-72;
  spawning the daemon thread is modelled by incrementing the count of
  live background loop contexts.  The source contains no check of
  `is_running` in `Run` and no error path; `SchedErr.invalidConfiguration`
  exists only as the failure the specification prescribes.
-/

namespace FiberSched

/-- Embeds the Python `FiberInfo` dataclass (src/FiberScheduler.py lines 6-13).
The callable and its outcome are fused into `fiber : Option α → Except ε Unit`. -/
structure FiberInfo (α ε : Type) where
  fiber_name : String
  fiber : Option α → Except ε Unit
  args : Option α
  interval : Option Int
  activation_status : Bool
  running_status : Bool

/-- Embeds the `FiberScheduler` instance attributes (lines 16-19).
Python dicts become association lists in insertion order. -/
structure SchedState (α ε : Type) where
  fiber_list : List (FiberInfo α ε)
  fiber_last_trigger_time : List (String × Int)
  is_running : Bool

/-- The error taxonomy of the specification.  `unknownTask` is the Python
`KeyError` of a failed registry lookup; `invalidConfiguration` is named by
the specification but no code path in the source produces it. -/
inductive SchedErr where
  | unknownTask
  | invalidConfiguration
  deriving DecidableEq

variable {α ε : Type}

/-- Dict lookup `self.fiber_list[name]` as first-match search. -/
def lookupFiber : List (FiberInfo α ε) → String → Option (FiberInfo α ε)
  | [], _ => none
  | fi :: rest, n => if fi.fiber_name = n then some fi else lookupFiber rest n

/-- Dict lookup `self.fiber_last_trigger_time[name]`. -/
def lookupLast : List (String × Int) → String → Option Int
  | [], _ => none
  | p :: rest, n => if p.1 = n then some p.2 else lookupLast rest n

/-- Dict assignment `self.fiber_last_trigger_time[name] = t`: replace in
place if the key exists (Python keeps its position), append otherwise. -/
def setLast : List (String × Int) → String → Int → List (String × Int)
  | [], n, t => [(n, t)]
  | p :: rest, n, t => if p.1 = n then (n, t) :: rest else p :: setLast rest n t

/-- Field mutation on the descriptor object stored under `n`
(e.g. `fiber_info.running_status = True`). -/
def updateFiber (l : List (FiberInfo α ε)) (n : String)
    (g : FiberInfo α ε → FiberInfo α ε) : List (FiberInfo α ε) :=
  l.map fun fi => if fi.fiber_name = n then g fi else fi

/-- Dict assignment `self.fiber_list[name] = FiberInfo(...)`: replace in
place keeping the original position, append otherwise. -/
def insertFiber : List (FiberInfo α ε) → FiberInfo α ε → List (FiberInfo α ε)
  | [], fi => [fi]
  | x :: xs, fi =>
    if x.fiber_name = fi.fiber_name then fi :: xs else x :: insertFiber xs fi

/-- Embeds `RegisterFiber` (lines 21-22): stores a fresh descriptor with
`running_status = False`; the last-trigger-time dict is not touched. -/
def RegisterFiber (s : SchedState α ε) (name : String)
    (fiber : Option α → Except ε Unit) (args : Option α)
    (interval : Option Int) (activation_status : Bool) : SchedState α ε :=
  let fl := insertFiber s.fiber_list ⟨name, fiber, args, interval, activation_status, false⟩
  { s with fiber_list := fl }

/-- Embeds `ActivateFiber` (lines 24-26).  The `KeyError` of the failed
lookup is raised before any mutation, so the state is returned unchanged
alongside the error. -/
def ActivateFiber (s : SchedState α ε) (n : String) :
    Option SchedErr × SchedState α ε :=
  match lookupFiber s.fiber_list n with
  | none => (some .unknownTask, s)
  | some _ =>
    let fl := updateFiber s.fiber_list n (fun fi => { fi with activation_status := true })
    (none, { s with fiber_list := fl })

/-- Embeds `IsFiberRunning` (lines 34-35). -/
def IsFiberRunning (s : SchedState α ε) (n : String) : Except SchedErr Bool :=
  match lookupFiber s.fiber_list n with
  | none => .error .unknownTask
  | some fi => .ok fi.running_status

/-- Outcome of the sequential `DeactivateFiber`: `KeyError`, a busy-wait
that can never exit, or normal completion. -/
inductive DeactOutcome (α ε : Type) where
  | err (e : SchedErr) (s : SchedState α ε)
  | spinsForever (s : SchedState α ε)
  | doneAt (s : SchedState α ε)

/-- Embeds `DeactivateFiber` (lines 28-32) as seen by a single execution
context: the busy-wait of lines 29-30 re-reads `running_status` which
nothing else changes, so it exits immediately when the flag is false and
spins forever when it is true; only after the wait is
`activation_status` cleared (line 31). -/
def DeactivateFiber (s : SchedState α ε) (n : String) : DeactOutcome α ε :=
  match lookupFiber s.fiber_list n with
  | none => .err .unknownTask s
  | some fi =>
    if fi.running_status then .spinsForever s
    else
      let fl := updateFiber s.fiber_list n (fun f => { f with activation_status := false })
      .doneAt { s with fiber_list := fl }

/-- Lines 45-47: when the task has an interval and has not been seen
before, seed its last trigger time with the current clock value. -/
def gateState (t : Int) (s : SchedState α ε) (n : String)
    (fi : FiberInfo α ε) : SchedState α ε :=
  if fi.interval ≠ none ∧ lookupLast s.fiber_last_trigger_time n = none then
    { s with fiber_last_trigger_time := setLast s.fiber_last_trigger_time n t }
  else s

/-- Lines 45-49: a task with no interval is eligible on every pass; a task
with interval `iv` is skipped while `t - last < iv` (the `continue` of
line 49), reading the possibly just-seeded last trigger time. -/
def isEligible (t : Int) (s : SchedState α ε) (n : String)
    (fi : FiberInfo α ε) : Bool :=
  match fi.interval with
  | none => true
  | some iv =>
    match lookupLast (gateState t s n fi).fiber_last_trigger_time n with
    | none => true
    | some last => !decide (t - last < iv)

/-- Lines 51-52: stamp the last trigger time at selection, then set
`running_status = True` on the stored descriptor. -/
def fireState (t : Int) (s : SchedState α ε) (n : String) : SchedState α ε :=
  { s with
    fiber_last_trigger_time := setLast s.fiber_last_trigger_time n t,
    fiber_list := updateFiber s.fiber_list n (fun f => { f with running_status := true }) }

/-- Line 57: set `running_status = False` after a normal return. -/
def finishState (s : SchedState α ε) (n : String) : SchedState α ε :=
  let fl := updateFiber s.fiber_list n (fun f => { f with running_status := false })
  { s with fiber_list := fl }

/-- One pass of the `for` body of `RunFiberLoop` (lines 40-58) over the
remaining registry keys, at simulated clock value `t`.  Returns the new
state, the invocation events `(name, start time)` in order, and the
exception that propagated out of a fiber, if any: an `.error` outcome of
`fiber()` aborts the pass at once with `running_status` left `true`,
exactly as the unhandled Python exception skips line 57 and kills the
loop thread. -/
def runPassAux (t : Int) :
    List String → SchedState α ε → SchedState α ε × List (String × Int) × Option ε
  | [], s => (s, [], none)
  | n :: rest, s =>
    if s.is_running = false then (s, [], none)
    else
      match lookupFiber s.fiber_list n with
      | none => runPassAux t rest s
      | some fi =>
        if fi.activation_status = false then runPassAux t rest s
        else if isEligible t s n fi then
          let sf := fireState t (gateState t s n fi) n
          match fi.fiber fi.args with
          | .error e => (sf, [(n, t)], some e)
          | .ok _ =>
            let r := runPassAux t rest (finishState sf n)
            (r.1, (n, t) :: r.2.1, r.2.2)
        else runPassAux t rest (gateState t s n fi)

/-- One full pass: iterate over the registry keys in insertion order. -/
def runPass (t : Int) (s : SchedState α ε) :
    SchedState α ε × List (String × Int) × Option ε :=
  runPassAux t (s.fiber_list.map fun fi => fi.fiber_name) s

/-- Finitely many passes of the `while` loop of `RunFiberLoop`, driven at
the injected clock values; an exception propagating out of a pass stops
the loop for good (the thread dies). -/
def runLoop : List Int → SchedState α ε → SchedState α ε × List (String × Int) × Option ε
  | [], s => (s, [], none)
  | t :: ts, s =>
    let r := runPass t s
    match r.2.2 with
    | some _ => r
    | none =>
      let r2 := runLoop ts r.1
      (r2.1, r.2.1 ++ r2.2.1, r2.2.2)

/-- Embeds `RunFiberLoop` (lines 37-58): set `is_running = True`
(line 38), then drive passes. -/
def RunFiberLoop (ts : List Int) (s : SchedState α ε) :
    SchedState α ε × List (String × Int) × Option ε :=
  runLoop ts { s with is_running := true }

/-- The invocation-start times of task `n` in an event list. -/
def evFor (n : String) : List (String × Int) → List Int
  | [] => []
  | e :: rest => if e.1 = n then e.2 :: evFor n rest else evFor n rest

/-- `SpacedFrom I prev ts`: every element of `ts` is at least `I` after its
predecessor, the first one counting from `prev` when that is present.
With `prev = none` this is exactly "successive invocation starts are never
less than `I` apart". -/
def SpacedFrom (I : Int) : Option Int → List Int → Prop
  | _, [] => True
  | prev, t :: rest =>
    (∀ t1, prev = some t1 → I ≤ t - t1) ∧ SpacedFrom I (some t) rest

/-- The last element of `ts`, or `prev` when `ts` is empty. -/
def lastEv (prev : Option Int) : List Int → Option Int
  | [] => prev
  | t :: rest => lastEv (some t) rest

/-- The stored last trigger time of `n` agrees with the time of its most
recent invocation (when one exists). -/
def MapConsistent (s : SchedState α ε) (n : String) (prev : Option Int) : Prop :=
  ∀ t1, prev = some t1 → lookupLast s.fiber_last_trigger_time n = some t1

/-- Every registered descriptor is idle. -/
def AllIdle (s : SchedState α ε) : Prop :=
  ∀ fi ∈ s.fiber_list, fi.running_status = false

/-- Program counter of the `DeactivateFiber` body (lines 28-32): spinning
in the wait of lines 29-30, about to clear the flag at line 31, or
returned. -/
inductive DPc where
  | wait
  | clearFlag
  | finished
  deriving DecidableEq

/-- The shared state visible to the deactivating caller and the loop
thread, for one fixed task: its `activation_status`, its
`running_status`, and the caller's position inside `DeactivateFiber`. -/
structure DState where
  enabled : Bool
  running : Bool
  pc : DPc
  deriving DecidableEq

/-- Thread labels of the interleaving model. -/
inductive DLabel where
  | deact
  | env
  deriving DecidableEq

/-- Small-step interleaving of `DeactivateFiber` (label `.deact`,
lines 28-32) with the scheduler-loop thread (label `.env`).
`waitSpin`/`waitExit` are one iteration of the busy-wait of line 29
observing `running_status`; `clearEnabled` is line 31.  The loop thread
may start an invocation of the task only while it is enabled
(the check of line 43 followed by line 52) and may finish an in-flight
invocation (line 57). -/
inductive DStep : DLabel → DState → DState → Prop where
  | waitSpin : ∀ s, s.pc = .wait → s.running = true → DStep .deact s s
  | waitExit : ∀ s, s.pc = .wait → s.running = false →
      DStep .deact s { s with pc := .clearFlag }
  | clearEnabled : ∀ s, s.pc = .clearFlag →
      DStep .deact s { s with enabled := false, pc := .finished }
  | envStart : ∀ s, s.enabled = true → s.running = false →
      DStep .env s { s with running := true }
  | envFinish : ∀ s, s.running = true → DStep .env s { s with running := false }

/-- A step by either thread. -/
def AnyStep (s s1 : DState) : Prop := ∃ l, DStep l s s1

/-- A step by the deactivating caller only: no other execution context
touches the shared flags. -/
def DeactOnly (s s1 : DState) : Prop := DStep .deact s s1

/-- Embeds `Run` / `Resume` / `Stop` state (lines 60-72): the scheduler
state plus the number of background loop contexts started and not yet
exited. -/
structure LifecycleState (α ε : Type) where
  sched : SchedState α ε
  thread_count : Nat

/-- Embeds `Run` (lines 60-64): unconditionally creates and starts a new
daemon thread driving `RunFiberLoop`.  The source checks nothing and has
no error path, so the error component is always `none`. -/
def Run (ls : LifecycleState α ε) : Option SchedErr × LifecycleState α ε :=
  (none, { ls with thread_count := ls.thread_count + 1 })

/-- Embeds `Resume` (lines 66-68): delegates to `Run`. -/
def Resume (ls : LifecycleState α ε) : Option SchedErr × LifecycleState α ε :=
  Run ls

/-- Embeds `Stop` (lines 70-72): clears the loop-active flag. -/
def StopSched (ls : LifecycleState α ε) : LifecycleState α ε :=
  { ls with sched := { ls.sched with is_running := false } }

/-- A unit of work that returns normally. -/
def workOk : Option Nat → Except String Unit := fun _ => .ok ()

/-- A unit of work that raises. -/
def workBoom : Option Nat → Except String Unit := fun _ => .error "boom"

/-- Scenario B task: name `T`, interval 5, enabled. -/
def fiberT : FiberInfo Nat String := ⟨"T", workOk, none, some 5, true, false⟩

/-- Scenario B initial scheduler state. -/
def s4 : SchedState Nat String := ⟨[fiberT], [], false⟩

/-- Scenario B state as seen inside `RunFiberLoop` (line 38 already ran). -/
def s4r : SchedState Nat String := { s4 with is_running := true }

/-- Scenario D state: `T` raises on invocation, `other` is a healthy
enabled task registered after it; the loop is active. -/
def sD : SchedState Nat String :=
  ⟨[⟨"T", workBoom, none, none, true, false⟩,
    ⟨"other", workOk, none, none, true, false⟩], [], true⟩

/-- A disabled task with an interval and a bound argument. -/
def fiberD : FiberInfo Nat String := ⟨"D", workOk, some 7, some 1, false, false⟩

/-- State holding only the disabled task. -/
def sDis : SchedState Nat String := ⟨[fiberD], [], false⟩

/-- A state in which task `T` is registered and already has a stored last
trigger time of 3, for the re-registration scenario. -/
def sC9 : SchedState Nat String :=
  ⟨[⟨"T", workOk, none, some 5, true, false⟩], [("T", 3)], true⟩

/-- A lifecycle state whose loop is already active on one background
context. -/
def ls1 : LifecycleState Nat String := ⟨s4r, 1⟩

end FiberSched

namespace FiberSched

variable {α ε : Type}

theorem lookupLast_setLast (mp : List (String × Int)) (n m : String) (t : Int) :
    lookupLast (setLast mp n t) m = if n = m then some t else lookupLast mp m := by
  induction mp with
  | nil => simp [setLast, lookupLast]
  | cons p rest ih =>
    by_cases h : p.1 = n
    · subst h
      by_cases h2 : p.1 = m <;> simp [setLast, lookupLast, h2]
    · by_cases h3 : n = m
      · subst h3
        simp [setLast, lookupLast, h, ih]
      · simp [setLast, lookupLast, h, h3, ih]

theorem updateFiber_cons (fi : FiberInfo α ε) (rest : List (FiberInfo α ε))
    (n : String) (g : FiberInfo α ε → FiberInfo α ε) :
    updateFiber (fi :: rest) n g =
      (if fi.fiber_name = n then g fi else fi) :: updateFiber rest n g := rfl

theorem lookupFiber_updateFiber (l : List (FiberInfo α ε)) (n m : String)
    (g : FiberInfo α ε → FiberInfo α ε)
    (hg : ∀ fi, (g fi).fiber_name = fi.fiber_name) :
    lookupFiber (updateFiber l n g) m =
      if n = m then (lookupFiber l m).map g else lookupFiber l m := by
  induction l with
  | nil => simp [updateFiber, lookupFiber]
  | cons fi rest ih =>
    rw [updateFiber_cons]
    by_cases h : fi.fiber_name = n
    · by_cases h2 : n = m
      · subst h2
        simp [lookupFiber, h, hg, ih]
      · have h3 : fi.fiber_name ≠ m := by rw [h]; exact h2
        simp [lookupFiber, h, hg, h3, h2, ih]
    · by_cases h2 : fi.fiber_name = m
      · subst h2
        have h3 : ¬ n = fi.fiber_name := fun hh => h hh.symm
        simp [lookupFiber, h, h3, ih]
      · simp [lookupFiber, h, h2, ih]

theorem lookupFiber_insertFiber (l : List (FiberInfo α ε)) (fi : FiberInfo α ε) :
    lookupFiber (insertFiber l fi) fi.fiber_name = some fi := by
  induction l with
  | nil => simp [insertFiber, lookupFiber]
  | cons x xs ih =>
    by_cases h : x.fiber_name = fi.fiber_name <;>
      simp [insertFiber, lookupFiber, h, ih]

theorem lookupFiber_register (s : SchedState α ε) (name : String)
    (f : Option α → Except ε Unit) (a : Option α) (iv : Option Int) (act : Bool) :
    lookupFiber (RegisterFiber s name f a iv act).fiber_list name =
      some ⟨name, f, a, iv, act, false⟩ := by
  simpa [RegisterFiber] using
    lookupFiber_insertFiber s.fiber_list ⟨name, f, a, iv, act, false⟩

theorem gateState_fiber_list (t : Int) (s : SchedState α ε) (n : String)
    (fi : FiberInfo α ε) : (gateState t s n fi).fiber_list = s.fiber_list := by
  unfold gateState
  split <;> rfl

theorem gateState_is_running (t : Int) (s : SchedState α ε) (n : String)
    (fi : FiberInfo α ε) : (gateState t s n fi).is_running = s.is_running := by
  unfold gateState
  split <;> rfl

theorem gateState_of_some (t : Int) (s : SchedState α ε) (n : String)
    (fi : FiberInfo α ε) (l : Int)
    (h : lookupLast s.fiber_last_trigger_time n = some l) :
    gateState t s n fi = s := by
  unfold gateState
  rw [h]
  simp

theorem lookupLast_gateState_ne (t : Int) (s : SchedState α ε) (n m : String)
    (fi : FiberInfo α ε) (h : m ≠ n) :
    lookupLast (gateState t s m fi).fiber_last_trigger_time n =
      lookupLast s.fiber_last_trigger_time n := by
  unfold gateState
  split
  · simp [lookupLast_setLast, h]
  · rfl


/-- Claim C1 (counterexample): the code's `DeactivateFiber` CAN return
while an invocation of the task's work is in flight.  Starting enabled
and idle, the wait of line 29 observes `running_status = false` and
exits; the loop thread then selects the still-enabled task and starts an
invocation (lines 43, 52); only now does line 31 clear the flag and
return — leaving the caller returned from `DeactivateFiber` with
`running = true`.  This refutes the claim that the call first sets
`enabled = false` and never returns while an invocation is in flight. -/
theorem deactivate_returns_while_running :
    Relation.ReflTransGen AnyStep ⟨true, false, .wait⟩ ⟨false, true, .finished⟩
    ∧ (⟨false, true, DPc.finished⟩ : DState).running = true := by
  constructor
  · have h1 : AnyStep ⟨true, false, .wait⟩ ⟨true, false, .clearFlag⟩ :=
      ⟨.deact, DStep.waitExit _ rfl rfl⟩
    have h2 : AnyStep ⟨true, false, .clearFlag⟩ ⟨true, true, .clearFlag⟩ :=
      ⟨.env, DStep.envStart _ rfl rfl⟩
    have h3 : AnyStep ⟨true, true, .clearFlag⟩ ⟨false, true, .finished⟩ :=
      ⟨.deact, DStep.clearEnabled _ rfl⟩
    exact Relation.ReflTransGen.head h1
      (Relation.ReflTransGen.head h2 (Relation.ReflTransGen.single h3))
  · rfl

/-- Claim C1 (amended): `DeactivateFiber` first busy-waits until the
task's `running_status` is observed false and only then clears
`activation_status`: in every step of its body, the enabled flag is
cleared only from the post-wait program point, and the wait is exited
only upon observing `running = false`, with the enabled flag untouched
by that exit. -/
theorem deactivate_clears_enabled_after_wait :
    ∀ (l : DLabel) (s s1 : DState), DStep l s s1 →
      (s1.enabled = false → s.enabled = false ∨ s.pc = .clearFlag)
      ∧ (s.pc = .wait → s1.pc ≠ .wait → s.running = false ∧ s1.enabled = s.enabled) := by
  intro l s s1 h
  cases h <;> simp_all

/-- Witness for `deactivate_clears_enabled_after_wait` at the concrete
wait-exit step from the enabled, idle state. -/
theorem deactivate_clears_enabled_after_wait_witness :
    (⟨true, false, DPc.wait⟩ : DState).running = false
    ∧ (⟨true, false, DPc.clearFlag⟩ : DState).enabled =
        (⟨true, false, DPc.wait⟩ : DState).enabled :=
  (deactivate_clears_enabled_after_wait .deact ⟨true, false, .wait⟩
    ⟨true, false, .clearFlag⟩ (DStep.waitExit _ rfl rfl)).2 rfl (by decide)

/-- Claim C10: if the task's `running_status` is true and no other
execution context ever clears it, the busy-wait of `DeactivateFiber`
(lines 29-30) never returns: every state reachable by steps of the
deactivating caller alone is still at the wait. -/
theorem deactivate_busy_wait_never_returns :
    ∀ (s0 s1 : DState), s0.pc = .wait → s0.running = true →
      Relation.ReflTransGen DeactOnly s0 s1 → s1.pc = .wait := by
  intro s0 s1 h1 h2 h3
  suffices h : s1.pc = .wait ∧ s1.running = true from h.1
  induction h3 with
  | refl => exact ⟨h1, h2⟩
  | tail hab hbc ih =>
    obtain ⟨hpc, hrun⟩ := ih
    cases hbc with
    | waitSpin _ hp hr => exact ⟨hpc, hrun⟩
    | waitExit _ hp hr =>
      rw [hrun] at hr
      cases hr
    | clearEnabled _ hp =>
      rw [hpc] at hp
      cases hp

/-- Witness for `deactivate_busy_wait_never_returns`: one spin iteration
from the enabled, running state. -/
theorem deactivate_busy_wait_never_returns_witness :
    (⟨true, true, DPc.wait⟩ : DState).pc = DPc.wait :=
  deactivate_busy_wait_never_returns ⟨true, true, .wait⟩ ⟨true, true, .wait⟩ rfl rfl
    (Relation.ReflTransGen.single (DStep.waitSpin _ rfl rfl))

/-- Claim C2 (counterexample): when the work of task `T` raises during
invocation, the invocation ends (the exception propagates out of the
pass) yet `running_status` stays true: line 57 is never reached, so the
flag is NOT false "however the invocation ended". -/
theorem running_flag_stuck_after_raise :
    (runPass 0 sD).2.2 = some "boom"
    ∧ (lookupFiber (runPass 0 sD).1.fiber_list "T").map
        (fun fi => fi.running_status) = some true :=
  ⟨rfl, rfl⟩

/-- Claim C4: task `T` with `interval = 5`, activated, driven at
simulated times 0..11: the pass at t = 0 produces no invocation and only
seeds `T`'s last trigger time to 0; over the whole run `T` is invoked
exactly at t = 5 and t = 10 — two invocations in total. -/
theorem scenario_b_interval_five :
    (RunFiberLoop [0, 1, 2, 3, 4, 5, 6, 7, 8, 9, 10, 11] s4).2.1 = [("T", 5), ("T", 10)]
    ∧ (runPass 0 s4r).2.1 = []
    ∧ lookupLast (runPass 0 s4r).1.fiber_last_trigger_time "T" = some 0 :=
  ⟨rfl, rfl, rfl⟩

/-- Claim C5: an exception raised by a fiber's work is neither caught nor
translated by the loop: the loop run ends with exactly that error, and
the event list of the whole run is the event list of the failing pass —
no task in the registry is invoked on any later pass. -/
theorem unhandled_failure_halts_loop (t : Int) (ts : List Int)
    (s : SchedState α ε) (e : ε) (h : (runPass t s).2.2 = some e) :
    (runLoop (t :: ts) s).2.2 = some e
    ∧ (runLoop (t :: ts) s).2.1 = (runPass t s).2.1 := by
  have hrew : runLoop (t :: ts) s = runPass t s := by
    simp only [runLoop]
    rw [h]
  rw [hrew]
  exact ⟨h, rfl⟩

/-- Witness for `unhandled_failure_halts_loop`: scenario D, where `T`
raises on its first invocation at t = 0 and the healthy task `other` is
never invoked on the passes at t = 1, 2, 3. -/
theorem unhandled_failure_halts_loop_witness :
    (runLoop [0, 1, 2, 3] sD).2.2 = some "boom"
    ∧ (runLoop [0, 1, 2, 3] sD).2.1 = (runPass 0 sD).2.1 :=
  unhandled_failure_halts_loop 0 [1, 2, 3] sD "boom" rfl

/-- Claim C6: `ActivateFiber`, `DeactivateFiber` and `IsFiberRunning` on
an unregistered name all fail with the explicit `unknownTask` error (the
`KeyError` of the failed registry lookup) and leave the state unchanged:
the lookup fails before any mutation. -/
theorem unknown_task_failures (s : SchedState α ε) (n : String)
    (h : lookupFiber s.fiber_list n = none) :
    ActivateFiber s n = (some .unknownTask, s)
    ∧ DeactivateFiber s n = .err .unknownTask s
    ∧ IsFiberRunning s n = .error .unknownTask := by
  unfold ActivateFiber DeactivateFiber IsFiberRunning
  rw [h]
  exact ⟨rfl, rfl, rfl⟩

/-- Witness for `unknown_task_failures` on the name `missing`, absent
from the scenario-B registry. -/
theorem unknown_task_failures_witness :
    ActivateFiber s4 "missing" = (some .unknownTask, s4)
    ∧ DeactivateFiber s4 "missing" = .err .unknownTask s4
    ∧ IsFiberRunning s4 "missing" = .error .unknownTask :=
  unknown_task_failures s4 "missing" rfl

/-- Claim C8 (counterexample): with the loop already active on one
background context, `Run` reports no failure at all (in particular not
`invalidConfiguration`) and silently starts a second concurrent loop
context. -/
theorem run_unguarded_second_loop :
    (Run ls1).1 = none ∧ (Run ls1).2.thread_count = 2 :=
  ⟨rfl, rfl⟩

/-- Claim C8 (amended): `Run` (and `Resume`, which merely delegates to
it) unconditionally spawns a new background loop context: it never
inspects whether the loop is active, never reports an error, increments
the count of live loop contexts, and leaves the scheduler state alone. -/
theorem run_always_spawns (ls : LifecycleState α ε) :
    (Run ls).1 = none
    ∧ (Run ls).2.thread_count = ls.thread_count + 1
    ∧ (Run ls).2.sched = ls.sched
    ∧ Resume ls = Run ls :=
  ⟨rfl, rfl, rfl, rfl⟩


theorem lookupFiber_fireState (t : Int) (s : SchedState α ε) (n m : String) :
    lookupFiber (fireState t s n).fiber_list m =
      if n = m then
        (lookupFiber s.fiber_list m).map (fun f => { f with running_status := true })
      else lookupFiber s.fiber_list m :=
  lookupFiber_updateFiber _ _ _ _ (fun _ => rfl)

theorem lookupFiber_finishState (s : SchedState α ε) (n m : String) :
    lookupFiber (finishState s n).fiber_list m =
      if n = m then
        (lookupFiber s.fiber_list m).map (fun f => { f with running_status := false })
      else lookupFiber s.fiber_list m :=
  lookupFiber_updateFiber _ _ _ _ (fun _ => rfl)

theorem lookupLast_fireState (t : Int) (s : SchedState α ε) (n m : String) :
    lookupLast (fireState t s n).fiber_last_trigger_time m =
      if n = m then some t else lookupLast s.fiber_last_trigger_time m :=
  lookupLast_setLast _ _ _ _

theorem lookupLast_finishState (s : SchedState α ε) (n m : String) :
    lookupLast (finishState s n).fiber_last_trigger_time m =
      lookupLast s.fiber_last_trigger_time m := rfl

theorem lookupLast_gateState (t : Int) (s : SchedState α ε) (m n : String)
    (fim : FiberInfo α ε) :
    lookupLast (gateState t s m fim).fiber_last_trigger_time n =
      lookupLast s.fiber_last_trigger_time n
    ∨ lookupLast s.fiber_last_trigger_time n = none := by
  unfold gateState
  split
  · next hcond =>
    rw [lookupLast_setLast]
    by_cases hmn : m = n
    · subst hmn
      right
      exact hcond.2
    · left
      rw [if_neg hmn]
  · left
    rfl

theorem evFor_append (n : String) (a b : List (String × Int)) :
    evFor n (a ++ b) = evFor n a ++ evFor n b := by
  induction a with
  | nil => rfl
  | cons e rest ih => by_cases h : e.1 = n <;> simp [evFor, h, ih]

theorem spacedFrom_append (I : Int) (a b : List Int) :
    ∀ prev, SpacedFrom I prev (a ++ b) ↔
      SpacedFrom I prev a ∧ SpacedFrom I (lastEv prev a) b := by
  induction a with
  | nil =>
    intro prev
    simp [SpacedFrom, lastEv]
  | cons t rest ih =>
    intro prev
    simp [SpacedFrom, lastEv, ih, and_assoc]

theorem passAux_shape (t : Int) :
    ∀ (names : List String) (s : SchedState α ε) (n : String) (fi : FiberInfo α ε),
      (∃ b, lookupFiber s.fiber_list n = some { fi with running_status := b }) →
      ∃ c, lookupFiber (runPassAux t names s).1.fiber_list n =
        some { fi with running_status := c } := by
  intro names
  induction names with
  | nil =>
    intro s n fi h
    exact h
  | cons m rest ih =>
    intro s n fi h
    by_cases hrun : s.is_running = false
    · simp only [runPassAux, if_pos hrun]
      exact h
    · cases hm : lookupFiber s.fiber_list m with
      | none =>
        simp only [runPassAux, if_neg hrun, hm]
        exact ih s n fi h
      | some fim =>
        by_cases hact : fim.activation_status = false
        · simp only [runPassAux, if_neg hrun, hm, if_pos hact]
          exact ih s n fi h
        · by_cases hel : isEligible t s m fim = true
          · simp only [runPassAux, if_neg hrun, hm, if_neg hact, if_pos hel]
            obtain ⟨b, hb⟩ := h
            have hgate : lookupFiber (gateState t s m fim).fiber_list n =
                some { fi with running_status := b } := by
              rw [gateState_fiber_list]
              exact hb
            cases hres : fim.fiber fim.args with
            | error e =>
              simp only [hres]
              by_cases hmn : m = n
              · subst hmn
                refine ⟨true, ?_⟩
                rw [lookupFiber_fireState, if_pos rfl, hgate]
                rfl
              · refine ⟨b, ?_⟩
                rw [lookupFiber_fireState, if_neg hmn]
                exact hgate
            | ok u =>
              simp only [hres]
              apply ih
              by_cases hmn : m = n
              · subst hmn
                refine ⟨false, ?_⟩
                rw [lookupFiber_finishState, if_pos rfl, lookupFiber_fireState,
                  if_pos rfl, hgate]
                rfl
              · refine ⟨b, ?_⟩
                rw [lookupFiber_finishState, if_neg hmn, lookupFiber_fireState,
                  if_neg hmn]
                exact hgate
          · simp only [runPassAux, if_neg hrun, hm, if_neg hact, if_neg hel]
            apply ih
            obtain ⟨b, hb⟩ := h
            refine ⟨b, ?_⟩
            rw [gateState_fiber_list]
            exact hb


theorem passAux_inactive (t : Int) :
    ∀ (names : List String) (s : SchedState α ε) (n : String) (fi : FiberInfo α ε),
      (∃ b, lookupFiber s.fiber_list n = some { fi with running_status := b }) →
      fi.activation_status = false →
      evFor n (runPassAux t names s).2.1 = [] := by
  intro names
  induction names with
  | nil =>
    intro s n fi h hact
    rfl
  | cons m rest ih =>
    intro s n fi h hact
    by_cases hrun : s.is_running = false
    · simp only [runPassAux, if_pos hrun]
      rfl
    · cases hm : lookupFiber s.fiber_list m with
      | none =>
        simp only [runPassAux, if_neg hrun, hm]
        exact ih s n fi h hact
      | some fim =>
        by_cases hmn : m = n
        · subst hmn
          obtain ⟨b, hb⟩ := h
          simp only [runPassAux, if_neg hrun, hb, if_pos hact]
          exact ih s m fi ⟨b, hb⟩ hact
        · by_cases hact2 : fim.activation_status = false
          · simp only [runPassAux, if_neg hrun, hm, if_pos hact2]
            exact ih s n fi h hact
          · by_cases hel : isEligible t s m fim = true
            · simp only [runPassAux, if_neg hrun, hm, if_neg hact2, if_pos hel]
              obtain ⟨b, hb⟩ := h
              have hgate : lookupFiber (gateState t s m fim).fiber_list n =
                  some { fi with running_status := b } := by
                rw [gateState_fiber_list]
                exact hb
              cases hres : fim.fiber fim.args with
              | error e =>
                simp only [hres]
                simp [evFor, hmn]
              | ok u =>
                simp only [hres]
                have hshape : ∃ c,
                    lookupFiber (finishState (fireState t (gateState t s m fim) m) m).fiber_list n =
                      some { fi with running_status := c } := by
                  refine ⟨b, ?_⟩
                  rw [lookupFiber_finishState, if_neg hmn, lookupFiber_fireState, if_neg hmn]
                  exact hgate
                have htail := ih (finishState (fireState t (gateState t s m fim) m) m) n fi hshape hact
                simp [evFor, hmn, htail]
            · simp only [runPassAux, if_neg hrun, hm, if_neg hact2, if_neg hel]
              apply ih
              · obtain ⟨b, hb⟩ := h
                refine ⟨b, ?_⟩
                rw [gateState_fiber_list]
                exact hb
              · exact hact

theorem allIdle_finish_fire (t : Int) (s : SchedState α ε) (m : String)
    (h : AllIdle s) : AllIdle (finishState (fireState t s m) m) := by
  intro fi hmem
  simp only [finishState, fireState, updateFiber, List.map_map, List.mem_map,
    Function.comp] at hmem
  obtain ⟨y, hy, hfi⟩ := hmem
  by_cases hym : y.fiber_name = m
  · rw [← hfi]
    simp [hym]
  · rw [← hfi]
    simp [hym]
    exact h y hy

theorem passAux_allIdle (t : Int) :
    ∀ (names : List String) (s : SchedState α ε),
      (runPassAux t names s).2.2 = none → AllIdle s →
      AllIdle (runPassAux t names s).1 := by
  intro names
  induction names with
  | nil =>
    intro s herr h
    exact h
  | cons m rest ih =>
    intro s herr h
    by_cases hrun : s.is_running = false
    · simp only [runPassAux, if_pos hrun]
      exact h
    · cases hm : lookupFiber s.fiber_list m with
      | none =>
        simp only [runPassAux, if_neg hrun, hm] at herr ⊢
        exact ih s herr h
      | some fim =>
        by_cases hact : fim.activation_status = false
        · simp only [runPassAux, if_neg hrun, hm, if_pos hact] at herr ⊢
          exact ih s herr h
        · by_cases hel : isEligible t s m fim = true
          · cases hres : fim.fiber fim.args with
            | error e =>
              simp only [runPassAux, if_neg hrun, hm, if_neg hact, if_pos hel,
                hres] at herr
              cases herr
            | ok u =>
              simp only [runPassAux, if_neg hrun, hm, if_neg hact, if_pos hel,
                hres] at herr ⊢
              apply ih _ herr
              have hg : AllIdle (gateState t s m fim) := by
                intro fi hmem
                rw [gateState_fiber_list] at hmem
                exact h fi hmem
              exact allIdle_finish_fire t (gateState t s m fim) m hg
          · simp only [runPassAux, if_neg hrun, hm, if_neg hact, if_neg hel] at herr ⊢
            apply ih _ herr
            intro fi hmem
            rw [gateState_fiber_list] at hmem
            exact h fi hmem

theorem passAux_error_running (t : Int) :
    ∀ (names : List String) (s : SchedState α ε) (e : ε),
      (runPassAux t names s).2.2 = some e →
      ∃ m, (lookupFiber (runPassAux t names s).1.fiber_list m).map
        (fun f => f.running_status) = some true := by
  intro names
  induction names with
  | nil =>
    intro s e herr
    cases herr
  | cons m rest ih =>
    intro s e herr
    by_cases hrun : s.is_running = false
    · simp only [runPassAux, if_pos hrun] at herr
      cases herr
    · cases hm : lookupFiber s.fiber_list m with
      | none =>
        simp only [runPassAux, if_neg hrun, hm] at herr ⊢
        exact ih s e herr
      | some fim =>
        by_cases hact : fim.activation_status = false
        · simp only [runPassAux, if_neg hrun, hm, if_pos hact] at herr ⊢
          exact ih s e herr
        · by_cases hel : isEligible t s m fim = true
          · cases hres : fim.fiber fim.args with
            | error e2 =>
              simp only [runPassAux, if_neg hrun, hm, if_neg hact, if_pos hel, hres] at herr ⊢
              refine ⟨m, ?_⟩
              rw [lookupFiber_fireState, if_pos rfl, gateState_fiber_list, hm]
              rfl
            | ok u =>
              simp only [runPassAux, if_neg hrun, hm, if_neg hact, if_pos hel,
                hres] at herr ⊢
              exact ih _ e herr
          · simp only [runPassAux, if_neg hrun, hm, if_neg hact, if_neg hel] at herr ⊢
            exact ih _ e herr

theorem passAux_last_or_event (t : Int) :
    ∀ (names : List String) (s : SchedState α ε) (n : String) (l : Int),
      lookupLast s.fiber_last_trigger_time n = some l →
      lookupLast (runPassAux t names s).1.fiber_last_trigger_time n = some l
      ∨ (n, t) ∈ (runPassAux t names s).2.1 := by
  intro names
  induction names with
  | nil =>
    intro s n l hl
    exact Or.inl hl
  | cons m rest ih =>
    intro s n l hl
    by_cases hrun : s.is_running = false
    · simp only [runPassAux, if_pos hrun]
      exact Or.inl hl
    · cases hm : lookupFiber s.fiber_list m with
      | none =>
        simp only [runPassAux, if_neg hrun, hm]
        exact ih s n l hl
      | some fim =>
        by_cases hact : fim.activation_status = false
        · simp only [runPassAux, if_neg hrun, hm, if_pos hact]
          exact ih s n l hl
        · by_cases hel : isEligible t s m fim = true
          · simp only [runPassAux, if_neg hrun, hm, if_neg hact, if_pos hel]
            cases hres : fim.fiber fim.args with
            | error e =>
              simp only [hres]
              by_cases hmn : m = n
              · subst hmn
                exact Or.inr (by simp)
              · left
                rw [lookupLast_fireState, if_neg hmn]
                rcases lookupLast_gateState t s m n fim with h2 | h2
                · rw [h2]
                  exact hl
                · rw [hl] at h2
                  cases h2
            | ok u =>
              simp only [hres]
              by_cases hmn : m = n
              · subst hmn
                exact Or.inr (by simp)
              · have hl2 : lookupLast
                    (finishState (fireState t (gateState t s m fim) m) m).fiber_last_trigger_time n = some l := by
                  rw [lookupLast_finishState, lookupLast_fireState, if_neg hmn]
                  rcases lookupLast_gateState t s m n fim with h2 | h2
                  · rw [h2]
                    exact hl
                  · rw [hl] at h2
                    cases h2
                rcases ih _ n l hl2 with h3 | h3
                · exact Or.inl h3
                · exact Or.inr (List.mem_cons_of_mem _ h3)
          · simp only [runPassAux, if_neg hrun, hm, if_neg hact, if_neg hel]
            apply ih
            rcases lookupLast_gateState t s m n fim with h2 | h2
            · rw [h2]
              exact hl
            · rw [hl] at h2
              cases h2


theorem runPass_eq (t : Int) (s : SchedState α ε) :
    runPass t s = runPassAux t (s.fiber_list.map fun f => f.fiber_name) s := rfl

theorem eligible_spacing (t : Int) (s : SchedState α ε) (n : String)
    (fi : FiberInfo α ε) (I t1 : Int) (hI : fi.interval = some I)
    (h1 : lookupLast s.fiber_last_trigger_time n = some t1)
    (hel : isEligible t s n fi = true) : I ≤ t - t1 := by
  have hgs : gateState t s n fi = s := gateState_of_some t s n fi t1 h1
  simp only [isEligible, hI, hgs, h1] at hel
  simp at hel
  omega

theorem passAux_spaced (t : Int) (n : String) (I : Int) :
    ∀ (names : List String) (s : SchedState α ε) (prev : Option Int) (fi : FiberInfo α ε),
      lookupFiber s.fiber_list n = some fi → fi.interval = some I →
      MapConsistent s n prev →
      SpacedFrom I prev (evFor n (runPassAux t names s).2.1)
      ∧ MapConsistent (runPassAux t names s).1 n
          (lastEv prev (evFor n (runPassAux t names s).2.1)) := by
  intro names
  induction names with
  | nil =>
    intro s prev fi hf hI hmc
    exact ⟨trivial, hmc⟩
  | cons m rest ih =>
    intro s prev fi hf hI hmc
    by_cases hrun : s.is_running = false
    · simp only [runPassAux, if_pos hrun]
      exact ⟨trivial, hmc⟩
    · cases hm : lookupFiber s.fiber_list m with
      | none =>
        simp only [runPassAux, if_neg hrun, hm]
        exact ih s prev fi hf hI hmc
      | some fim =>
        by_cases hact : fim.activation_status = false
        · simp only [runPassAux, if_neg hrun, hm, if_pos hact]
          exact ih s prev fi hf hI hmc
        · by_cases hel : isEligible t s m fim = true
          · cases hres : fim.fiber fim.args with
            | error e =>
              simp only [runPassAux, if_neg hrun, hm, if_neg hact, if_pos hel, hres]
              by_cases hmn : m = n
              · subst hmn
                rw [hf] at hm
                obtain rfl := Option.some.inj hm
                have hev : evFor m [(m, t)] = [t] := by simp [evFor]
                rw [hev]
                refine ⟨⟨?_, trivial⟩, ?_⟩
                · intro t1 hp
                  exact eligible_spacing t s m fi I t1 hI (hmc t1 hp) hel
                · intro t1 hp
                  obtain rfl := Option.some.inj hp
                  rw [lookupLast_fireState, if_pos rfl]
              · have hev : evFor n [(m, t)] = [] := by simp [evFor, hmn]
                rw [hev]
                refine ⟨trivial, ?_⟩
                intro t1 hp
                have h1 := hmc t1 hp
                rw [lookupLast_fireState, if_neg hmn]
                rcases lookupLast_gateState t s m n fim with h2 | h2
                · rw [h2]
                  exact h1
                · rw [h1] at h2
                  cases h2
            | ok u =>
              simp only [runPassAux, if_neg hrun, hm, if_neg hact, if_pos hel, hres]
              by_cases hmn : m = n
              · subst hmn
                rw [hf] at hm
                obtain rfl := Option.some.inj hm
                have hf2 : lookupFiber
                    (finishState (fireState t (gateState t s m fi) m) m).fiber_list m =
                    some { fi with running_status := false } := by
                  rw [lookupFiber_finishState, if_pos rfl, lookupFiber_fireState,
                    if_pos rfl, gateState_fiber_list, hf]
                  rfl
                have hmc2 : MapConsistent
                    (finishState (fireState t (gateState t s m fi) m) m) m (some t) := by
                  intro t1 hp
                  obtain rfl := Option.some.inj hp
                  rw [lookupLast_finishState, lookupLast_fireState, if_pos rfl]
                have hrec := ih (finishState (fireState t (gateState t s m fi) m) m)
                  (some t) { fi with running_status := false } hf2 hI hmc2
                have hev : ∀ evs, evFor m ((m, t) :: evs) = t :: evFor m evs := by
                  intro evs
                  simp [evFor]
                rw [hev]
                refine ⟨⟨?_, hrec.1⟩, hrec.2⟩
                intro t1 hp
                exact eligible_spacing t s m fi I t1 hI (hmc t1 hp) hel
              · have hf2 : lookupFiber
                    (finishState (fireState t (gateState t s m fim) m) m).fiber_list n =
                    some fi := by
                  rw [lookupFiber_finishState, if_neg hmn, lookupFiber_fireState,
                    if_neg hmn, gateState_fiber_list]
                  exact hf
                have hmc2 : MapConsistent
                    (finishState (fireState t (gateState t s m fim) m) m) n prev := by
                  intro t1 hp
                  have h1 := hmc t1 hp
                  rw [lookupLast_finishState, lookupLast_fireState, if_neg hmn]
                  rcases lookupLast_gateState t s m n fim with h2 | h2
                  · rw [h2]
                    exact h1
                  · rw [h1] at h2
                    cases h2
                have hev : ∀ evs, evFor n ((m, t) :: evs) = evFor n evs := by
                  intro evs
                  simp [evFor, hmn]
                rw [hev]
                exact ih _ prev fi hf2 hI hmc2
          · simp only [runPassAux, if_neg hrun, hm, if_neg hact, if_neg hel]
            have hf2 : lookupFiber (gateState t s m fim).fiber_list n = some fi := by
              rw [gateState_fiber_list]
              exact hf
            have hmc2 : MapConsistent (gateState t s m fim) n prev := by
              intro t1 hp
              have h1 := hmc t1 hp
              rcases lookupLast_gateState t s m n fim with h2 | h2
              · rw [h2]
                exact h1
              · rw [h1] at h2
                cases h2
            exact ih _ prev fi hf2 hI hmc2

theorem runLoop_spaced (n : String) (I : Int) :
    ∀ (ts : List Int) (s : SchedState α ε) (prev : Option Int) (fi : FiberInfo α ε),
      lookupFiber s.fiber_list n = some fi → fi.interval = some I →
      MapConsistent s n prev →
      SpacedFrom I prev (evFor n (runLoop ts s).2.1) := by
  intro ts
  induction ts with
  | nil =>
    intro s prev fi hf hI hmc
    exact trivial
  | cons t rest ih =>
    intro s prev fi hf hI hmc
    have hp := passAux_spaced t n I (s.fiber_list.map fun f => f.fiber_name)
      s prev fi hf hI hmc
    cases herr : (runPass t s).2.2 with
    | some e =>
      have heq : runLoop (t :: rest) s = runPass t s := by
        simp only [runLoop]
        rw [herr]
      rw [heq]
      exact hp.1
    | none =>
      have heq : runLoop (t :: rest) s =
          ((runLoop rest (runPass t s).1).1,
            (runPass t s).2.1 ++ (runLoop rest (runPass t s).1).2.1,
            (runLoop rest (runPass t s).1).2.2) := by
        simp only [runLoop]
        rw [herr]
      rw [heq]
      show SpacedFrom I prev
        (evFor n ((runPass t s).2.1 ++ (runLoop rest (runPass t s).1).2.1))
      rw [evFor_append, spacedFrom_append]
      refine ⟨hp.1, ?_⟩
      obtain ⟨c, hc⟩ := passAux_shape t (s.fiber_list.map fun f => f.fiber_name)
        s n fi ⟨fi.running_status, hf⟩
      exact ih (runPass t s).1 (lastEv prev (evFor n (runPass t s).2.1))
        { fi with running_status := c } hc hI hp.2

theorem runLoop_inactive :
    ∀ (ts : List Int) (s : SchedState α ε) (n : String) (fi : FiberInfo α ε),
      (∃ b, lookupFiber s.fiber_list n = some { fi with running_status := b }) →
      fi.activation_status = false →
      evFor n (runLoop ts s).2.1 = [] := by
  intro ts
  induction ts with
  | nil =>
    intro s n fi h hact
    rfl
  | cons t rest ih =>
    intro s n fi h hact
    have hp := passAux_inactive t (s.fiber_list.map fun f => f.fiber_name) s n fi h hact
    cases herr : (runPass t s).2.2 with
    | some e =>
      have heq : runLoop (t :: rest) s = runPass t s := by
        simp only [runLoop]
        rw [herr]
      rw [heq]
      exact hp
    | none =>
      have heq : runLoop (t :: rest) s =
          ((runLoop rest (runPass t s).1).1,
            (runPass t s).2.1 ++ (runLoop rest (runPass t s).1).2.1,
            (runLoop rest (runPass t s).1).2.2) := by
        simp only [runLoop]
        rw [herr]
      rw [heq]
      show evFor n ((runPass t s).2.1 ++ (runLoop rest (runPass t s).1).2.1) = []
      have hp2 : evFor n (runPass t s).2.1 = [] := hp
      rw [evFor_append, hp2, List.nil_append]
      have hsh : ∃ c, lookupFiber (runPass t s).1.fiber_list n =
          some { fi with running_status := c } := by
        rw [runPass_eq]
        exact passAux_shape t _ s n fi h
      exact ih (runPass t s).1 n fi hsh hact

theorem runLoop_allIdle :
    ∀ (ts : List Int) (s : SchedState α ε),
      (runLoop ts s).2.2 = none → AllIdle s → AllIdle (runLoop ts s).1 := by
  intro ts
  induction ts with
  | nil =>
    intro s herr h
    exact h
  | cons t rest ih =>
    intro s herr h
    cases he : (runPass t s).2.2 with
    | some e =>
      have heq : runLoop (t :: rest) s = runPass t s := by
        simp only [runLoop]
        rw [he]
      rw [heq] at herr
      rw [he] at herr
      cases herr
    | none =>
      have heq : runLoop (t :: rest) s =
          ((runLoop rest (runPass t s).1).1,
            (runPass t s).2.1 ++ (runLoop rest (runPass t s).1).2.1,
            (runLoop rest (runPass t s).1).2.2) := by
        simp only [runLoop]
        rw [he]
      rw [heq] at herr ⊢
      have herr2 : (runLoop rest (runPass t s).1).2.2 = none := herr
      show AllIdle (runLoop rest (runPass t s).1).1
      have hidle : AllIdle (runPass t s).1 := by
        rw [runPass_eq] at he ⊢
        exact passAux_allIdle t _ s he h
      exact ih (runPass t s).1 herr2 hidle


/-- Claim C3: for every registered task whose descriptor carries
`interval = I`, a loop run never starts two successive invocations of
that task with less than `I` time units between the invocation starts:
the per-task invocation-start times are pairwise spaced at least `I`
apart, for every registry and every injected clock sequence. -/
theorem interval_lower_bound_spacing (s : SchedState α ε) (ts : List Int)
    (n : String) (I : Int) (fi : FiberInfo α ε)
    (hf : lookupFiber s.fiber_list n = some fi) (hI : fi.interval = some I) :
    SpacedFrom I none (evFor n (RunFiberLoop ts s).2.1) := by
  unfold RunFiberLoop
  exact runLoop_spaced n I ts { s with is_running := true } none fi hf hI
    (by intro t1 hp; cases hp)

/-- Witness for `interval_lower_bound_spacing`: task `T` with interval 5
over passes at t = 0 and t = 5. -/
theorem interval_lower_bound_spacing_witness :
    SpacedFrom 5 none (evFor "T" (RunFiberLoop [0, 5] s4).2.1) :=
  interval_lower_bound_spacing s4 [0, 5] "T" 5 fiberT rfl rfl

/-- Claim C7: a registered task whose `activation_status` is false is
never invoked by the loop — for every interval value, every stored
argument, every registry around it, and every injected clock sequence,
the run contains no invocation event for it. -/
theorem disabled_task_never_invoked (s : SchedState α ε) (ts : List Int)
    (n : String) (fi : FiberInfo α ε)
    (hf : lookupFiber s.fiber_list n = some fi)
    (hact : fi.activation_status = false) :
    evFor n (RunFiberLoop ts s).2.1 = [] := by
  unfold RunFiberLoop
  exact runLoop_inactive ts { s with is_running := true } n fi
    ⟨fi.running_status, hf⟩ hact

/-- Witness for `disabled_task_never_invoked`: the disabled task `D`
with interval 1 and a bound argument, over three passes. -/
theorem disabled_task_never_invoked_witness :
    evFor "D" (RunFiberLoop [0, 1, 2] sDis).2.1 = [] :=
  disabled_task_never_invoked sDis [0, 1, 2] "D" fiberD rfl rfl

/-- Claim C2 (amended): the `running_status` flag is false immediately
after registration; a loop run in which every invocation returned
normally leaves every registered descriptor idle (so the flag is false
between and after normal invocations); but when an invocation ends by
raising, the raising task's `running_status` remains true — the flag is
NOT cleared on the exceptional ending. -/
theorem running_flag_lifecycle_amended :
    (∀ (s : SchedState α ε) (name : String) (f : Option α → Except ε Unit)
        (a : Option α) (iv : Option Int) (act : Bool),
      lookupFiber (RegisterFiber s name f a iv act).fiber_list name =
        some ⟨name, f, a, iv, act, false⟩)
    ∧ (∀ (ts : List Int) (s : SchedState α ε),
        (RunFiberLoop ts s).2.2 = none → AllIdle s →
        AllIdle (RunFiberLoop ts s).1)
    ∧ (∀ (t : Int) (s : SchedState α ε) (e : ε),
        (runPass t s).2.2 = some e →
        ∃ m, (lookupFiber (runPass t s).1.fiber_list m).map
          (fun f => f.running_status) = some true) := by
  refine ⟨fun s name f a iv act => lookupFiber_register s name f a iv act,
    fun ts s herr h => ?_, fun t s e herr => ?_⟩
  · unfold RunFiberLoop at herr ⊢
    exact runLoop_allIdle ts { s with is_running := true } herr h
  · rw [runPass_eq] at herr ⊢
    exact passAux_error_running t _ s e herr

/-- Witness for `running_flag_lifecycle_amended`: the raising task of
scenario D leaves a descriptor with `running_status = true` behind. -/
theorem running_flag_lifecycle_amended_witness :
    ∃ m, (lookupFiber (runPass 0 sD).1.fiber_list m).map
      (fun f => f.running_status) = some true :=
  running_flag_lifecycle_amended.2.2 0 sD "boom" rfl

/-- Claim C9: re-registering an existing name replaces its descriptor
(with `running_status` reset to false) but leaves the stored last
trigger times untouched, so on the next pass a replaced task with an
existing entry keeps its inherited last trigger time unless it is
actually invoked at that pass — it is never re-seeded. -/
theorem reregister_keeps_last_trigger_time (s : SchedState α ε) (name : String)
    (f : Option α → Except ε Unit) (a : Option α) (iv : Option Int) (act : Bool) :
    (∀ m, lookupLast (RegisterFiber s name f a iv act).fiber_last_trigger_time m =
        lookupLast s.fiber_last_trigger_time m)
    ∧ lookupFiber (RegisterFiber s name f a iv act).fiber_list name =
        some ⟨name, f, a, iv, act, false⟩
    ∧ (∀ (t l : Int),
        lookupLast s.fiber_last_trigger_time name = some l →
        lookupLast (runPass t (RegisterFiber s name f a iv act)).1.fiber_last_trigger_time
            name = some l
        ∨ (name, t) ∈ (runPass t (RegisterFiber s name f a iv act)).2.1) := by
  refine ⟨fun m => rfl, lookupFiber_register s name f a iv act, fun t l hl => ?_⟩
  rw [runPass_eq]
  exact passAux_last_or_event t _ (RegisterFiber s name f a iv act) name l hl

/-- Witness for `reregister_keeps_last_trigger_time`: task `T` with a
stored last trigger time of 3 is re-registered, and the pass at t = 4
either keeps that value or invokes `T`. -/
theorem reregister_keeps_last_trigger_time_witness :
    lookupLast (runPass 4 (RegisterFiber sC9 "T" workOk none (some 5) true)).1.fiber_last_trigger_time
        "T" = some 3
    ∨ ("T", 4) ∈ (runPass 4 (RegisterFiber sC9 "T" workOk none (some 5) true)).2.1 :=
  (reregister_keeps_last_trigger_time sC9 "T" workOk none (some 5) true).2.2 4 3 rfl

end FiberSched
